import Mathlib

/-!
Shallow embedding of `exps/GMOA/lfna_meta_model.py` (class `MetaModelV1`).

Tensors of timestamps are modelled as lists of rationals; embedding matrices
as lists of rows over an abstract row type `E`.  Neural sub-modules (the
attention block, the meta corrector, the generator MLP) are abstracted as
function parameters, since only the data-flow structure around them is
specified.  Python `None` becomes `Option`; operations that raise at runtime
(`torch.min` on an empty tensor, indexing `[:, -1, :]` on an empty sequence
dimension, Python's `UnboundLocalError` for `meta_loss` when `epochs == 0`)
return `none`.
-/

namespace MetaModelV1

/-- The mutable bookkeeping state of a `MetaModelV1` instance:
the registered buffer `_meta_timestamps` together with the parameter matrix
`_super_meta_embed` (rows over an abstract type `E`), the two append slots
`_append_meta_timestamps` / `_append_meta_embed` (keys `fixed` and `learnt`),
and the scalar configuration `_interval`, `_seq_length`, `_thresh`. -/
structure State (E : Type) where
  metaTimestamps : List ℚ
  superMetaEmbed : List E
  appendFixedTs : Option (List ℚ)
  appendFixedEmbed : Option (List E)
  appendLearntTs : Option ℚ
  appendLearntEmbed : Option E
  interval : ℚ
  seqLength : ℕ
  thresh : ℚ

variable {E : Type}

/-- Property `meta_timestamps`: concatenates the base buffer with the
`fixed` and then the `learnt` appended timestamps, skipping `None` slots. -/
def meta_timestamps (M : State E) : List ℚ :=
  M.metaTimestamps
    ++ (match M.appendFixedTs with
        | none => []
        | some ts => ts)
    ++ (match M.appendLearntTs with
        | none => []
        | some t => [t])

/-- Property `super_meta_embed`: concatenates the base embedding rows with
the `fixed` and then the `learnt` appended rows, skipping `None` slots. -/
def super_meta_embed (M : State E) : List E :=
  M.superMetaEmbed
    ++ (match M.appendFixedEmbed with
        | none => []
        | some rows => rows)
    ++ (match M.appendLearntEmbed with
        | none => []
        | some row => [row])

/-- `replace_append_learnt(timestamp, meta_embed)`: overwrite the `learnt`
slot of both dictionaries. -/
def replace_append_learnt (M : State E) (timestamp : Option ℚ)
    (meta_embed : Option E) : State E :=
  { M with appendLearntTs := timestamp, appendLearntEmbed := meta_embed }

/-- `clear_fixed()`: set both `fixed` slots to `None`. -/
def clear_fixed (M : State E) : State E :=
  { M with appendFixedTs := none, appendFixedEmbed := none }

/-- `clear_learnt()`: delegates to `replace_append_learnt(None, None)`. -/
def clear_learnt (M : State E) : State E :=
  replace_append_learnt M none none

/-- `append_fixed(timestamp, meta_embed)`: concatenate the new timestamps
and embedding rows onto the `fixed` slots (initialising them when `None`). -/
def append_fixed (M : State E) (timestamp : List ℚ) (meta_embed : List E) :
    State E :=
  { M with
    appendFixedTs :=
      match M.appendFixedTs with
      | none => some timestamp
      | some old => some (old ++ timestamp)
    appendFixedEmbed :=
      match M.appendFixedEmbed with
      | none => some meta_embed
      | some old => some (old ++ meta_embed) }

/-- `meta_length` property: number of stored meta timestamps. -/
def meta_length (M : State E) : ℕ :=
  (meta_timestamps M).length

/-- `get_closest_meta_distance(timestamp)`: `min |meta_timestamps - t|`.
`torch.min` raises on an empty tensor, hence the `Option`. -/
def get_closest_meta_distance (M : State E) (timestamp : ℚ) : Option ℚ :=
  ((meta_timestamps M).map (fun m => |m - timestamp|)).min?

/-- Well-formedness of the append bookkeeping: the two dictionaries hold
entries of matching shape in matching slots. -/
def WF (M : State E) : Prop :=
  M.metaTimestamps.length = M.superMetaEmbed.length
    ∧ (match M.appendFixedTs, M.appendFixedEmbed with
       | none, none => True
       | some ts, some rows => ts.length = rows.length
       | _, _ => False)
    ∧ (M.appendLearntTs.isSome = M.appendLearntEmbed.isSome)

/-- The constructor's handling of `interval` and `thresh`
(`assert interval is not None`; `_thresh = interval * 30 if thresh is None
else thresh`).  The assertion failure is the `Except.error`. -/
def init_thresh (interval : Option ℚ) (thresh : Option ℚ) :
    Except String ℚ :=
  match interval with
  | none => Except.error "assert interval is not None"
  | some i =>
      Except.ok (match thresh with
                 | none => i * 30
                 | some t => t)

/-- The parameter tensors held by a model, grouped as the source groups
them; each parameter is a value of an abstract type `P`. -/
structure ParamGroups (P : Type) where
  superMetaEmbed : P
  transAttParams : List P
  metaCorrectorParams : List P
  superLayerEmbed : P
  generatorParams : List P

/-- `get_parameters(time_embed, meta_corrector, generator)`: start from an
empty list, then append `_super_meta_embed`, extend with the attention and
corrector parameters, and append `_super_layer_embed` followed by the
generator parameters, guarded by the three flags. -/
def get_parameters {P : Type} (ps : ParamGroups P)
    (time_embed meta_corrector generator : Bool) : List P :=
  let parameters : List P := []
  let parameters :=
    if time_embed then parameters ++ [ps.superMetaEmbed] else parameters
  let parameters :=
    if meta_corrector then
      parameters ++ ps.transAttParams ++ ps.metaCorrectorParams
    else parameters
  let parameters :=
    if generator then
      parameters ++ [ps.superLayerEmbed] ++ ps.generatorParams
    else parameters
  parameters

/-- The registered buffer `_time_interval`:
`[-i * interval for i in range(seq_length)]` reversed. -/
def time_interval (interval : ℚ) (seqLength : ℕ) : List ℚ :=
  ((List.range seqLength).map (fun i : ℕ => -(i : ℚ) * interval)).reverse

/-- One row of `time_seq = timestamps.view(-1, 1) + _time_interval.view(1,
-1)`: the broadcast add of a scalar timestamp to the `_time_interval`
buffer. -/
def time_seq_row (interval : ℚ) (seqLength : ℕ) (t : ℚ) : List ℚ :=
  (time_interval interval seqLength).map (fun d => t + d)

/-- The attention mask of `_obtain_time_embed`, indexed `[batch][seq][meta]`:
`(timestamps.unsqueeze(-1) <= meta_timestamps.view(1,1,-1)) |
 (abs(timestamps.unsqueeze(-1) - meta_timestamps.view(1,1,-1)) > thresh)`. -/
def att_mask (timestamps : List (List ℚ)) (meta : List ℚ) (thresh : ℚ) :
    List (List (List Bool)) :=
  timestamps.map (fun row =>
    row.map (fun t =>
      meta.map (fun m => decide (t ≤ m) || decide (|t - m| > thresh))))

/-- `_obtain_time_embed(timestamps)` abstracted per batch row: attention,
positional embedding and the meta corrector act independently on each batch
element, so the whole block is `rowEmbed` mapped over the batch dimension. -/
def obtain_time_embed (rowEmbed : List ℚ → List E)
    (timestamps : List (List ℚ)) : List (List E) :=
  timestamps.map rowEmbed

/-- One output container of `forward_raw`:
`_shape_container.translate(torch.split(weights, 1))`, where `weights` is
the generator applied to the joint embedding of one time embedding with
every row of `_super_layer_embed`.  `gen` is the generator MLP acting on
the last tensor dimension; `translate` is the shape container's method. -/
def gen_container {L W C : Type} (layers : List L) (gen : E → L → W)
    (translate : List W → C) (e : E) : C :=
  translate (layers.map (gen e))

/-- The result triple of `forward_raw`: `time_seq` (absent when
`time_embeds` was given), the batch of weight containers (a flat list when
`get_seq_last`, a list of per-position lists otherwise), and the time
embeddings actually used (sliced to the last position when
`get_seq_last`). -/
structure ForwardOut (E C : Type) where
  timeSeq : Option (List (List ℚ))
  containers : List C ⊕ List (List C)
  timeEmbeds : List E ⊕ List (List E)

/-- The tail of `forward_raw` after `time_embeds` is available: slice
`time_embeds[:, -1, :]` when `get_seq_last` (which raises when a sequence is
empty, hence `Option`), build the joint embeddings, run the generator and
translate each per-layer split through the shape container. -/
def forward_containers {L W C : Type} (layers : List L) (gen : E → L → W)
    (translate : List W → C) (timeSeq : Option (List (List ℚ)))
    (time_embeds : List (List E)) (get_seq_last : Bool) :
    Option (ForwardOut E C) :=
  if get_seq_last then
    match time_embeds.mapM List.getLast? with
    | none => none
    | some lastEmbeds =>
        some { timeSeq := timeSeq
               containers :=
                 Sum.inl (lastEmbeds.map (gen_container layers gen translate))
               timeEmbeds := Sum.inl lastEmbeds }
  else
    some { timeSeq := timeSeq
           containers :=
             Sum.inr (time_embeds.map (fun row =>
               row.map (gen_container layers gen translate)))
           timeEmbeds := Sum.inr time_embeds }

/-- `forward_raw(timestamps, time_embeds, get_seq_last)`.  When
`time_embeds is None`, `time_seq` is built from `timestamps` and the
`_time_interval` buffer and embedded by `_obtain_time_embed`; otherwise the
given `time_embeds` is used and `time_seq` is `None`. -/
def forward_raw {L W C : Type} (M : State E) (layers : List L)
    (gen : E → L → W) (translate : List W → C) (rowEmbed : List ℚ → List E)
    (timestamps : Option (List ℚ)) (time_embeds : Option (List (List E)))
    (get_seq_last : Bool) : Option (ForwardOut E C) :=
  match time_embeds with
  | none =>
      match timestamps with
      | none => none
      | some ts =>
          let timeSeq := ts.map (time_seq_row M.interval M.seqLength)
          forward_containers layers gen translate (some timeSeq)
            (obtain_time_embed rowEmbed timeSeq) get_seq_last
  | some te =>
      forward_containers layers gen translate none te get_seq_last

/-- The loop-carried variables of `adapt`'s epoch loop: the live
`new_param`, the running `best_loss` / `best_new_param` pair, and the Python
variable `meta_loss`, which is unbound (`none`) until the first epoch has
run. -/
structure LoopState (E : Type) where
  param : E
  bestLoss : ℚ
  bestParam : E
  lastLoss : Option ℚ

/-- One epoch of `adapt`: compute `meta_loss` from the current `new_param`
(`lossOf`), take the optimizer step (`stepF`, abstracting Adam on the
combined `meta_loss + match_loss` gradient), then record the post-step
clone of `new_param` whenever `meta_loss` strictly improved on
`best_loss`. -/
def adapt_epoch (lossOf : E → ℚ) (stepF : ℕ → E → E) (st : LoopState E)
    (iepoch : ℕ) : LoopState E :=
  let metaLoss := lossOf st.param
  let param2 := stepF iepoch st.param
  if metaLoss < st.bestLoss then
    { param := param2, bestLoss := metaLoss, bestParam := param2,
      lastLoss := some metaLoss }
  else
    { param := param2, bestLoss := st.bestLoss, bestParam := st.bestParam,
      lastLoss := some metaLoss }

/-- The epoch loop of `adapt`, folded over `range(epochs)`. -/
def adapt_loop (lossOf : E → ℚ) (stepF : ℕ → E → E) (epochs : ℕ)
    (st : LoopState E) : LoopState E :=
  (List.range epochs).foldl (adapt_epoch lossOf stepF) st

/-- `adapt(base_model, criterion, timestamp, x, y, lr, epochs, init_info)`.
Returns early with `(False, None)` when the new timestamp is too close to a
stored one; otherwise initialises `new_param` (from `init_info` when given,
else the fresh `create_meta_embed()` draw `freshParam` with `best_loss =
1e9`), registers it in the `learnt` slot, runs the epoch loop, then clears
the `learnt` slot, appends the best snapshot as a `fixed` entry and returns
`(True, meta_loss.item())`.  The outer `none` models the crashes: an empty
meta-timestamp buffer, or `meta_loss` unbound because `epochs == 0`. -/
def adapt (M : State E) (timestamp : ℚ) (epochs : ℕ)
    (init_info : Option (ℚ × E)) (freshParam : E) (lossOf : E → ℚ)
    (stepF : ℕ → E → E) : Option ((Bool × Option ℚ) × State E) :=
  match get_closest_meta_distance M timestamp with
  | none => none
  | some distance =>
      if distance + M.interval * (1 / 100) ≤ M.interval then
        some ((false, none), M)
      else
        let newParam :=
          match init_info with
          | some info => info.2
          | none => freshParam
        let bestLoss : ℚ :=
          match init_info with
          | some info => info.1
          | none => 1000000000
        let M1 := replace_append_learnt M (some timestamp) (some newParam)
        let stF := adapt_loop lossOf stepF epochs
          { param := newParam, bestLoss := bestLoss, bestParam := newParam,
            lastLoss := none }
        let M2 := append_fixed (replace_append_learnt M1 none none)
          [timestamp] [stF.bestParam]
        match stF.lastLoss with
        | none => none
        | some l => some ((true, some l), M2)

/-- The trajectory of `new_param` through the epoch loop: `param_traj p0 n`
is its value at the start of epoch `n` (equivalently after `n` optimizer
steps). -/
def param_traj (stepF : ℕ → E → E) (p0 : E) : ℕ → E
  | 0 => p0
  | n + 1 => stepF n (param_traj stepF p0 n)

/-- C9: `MetaModelV1.__init__` fails with an assertion error iff
`interval is None`; on success `_thresh` is `interval * 30` when `thresh is
None` and `thresh` itself otherwise. -/
theorem init_thresh_spec :
    (∀ interval thresh : Option ℚ,
      ((∃ e, init_thresh interval thresh = Except.error e) ↔ interval = none))
    ∧ (∀ i : ℚ, init_thresh (some i) none = Except.ok (i * 30))
    ∧ (∀ i t : ℚ, init_thresh (some i) (some t) = Except.ok t) := by
  refine ⟨fun interval thresh => ?_, fun i => rfl, fun i t => rfl⟩
  cases interval with
  | none =>
      simp only [init_thresh, eq_self_iff_true, iff_true]
      exact ⟨"assert interval is not None", rfl⟩
  | some i =>
      simp only [init_thresh]
      constructor
      · rintro ⟨e, he⟩
        cases thresh <;> simp_all
      · intro h
        cases h

/-- C8: `get_parameters(time_embed, meta_corrector, generator)` returns
exactly the concatenation of the selected groups — the super meta embedding
iff `time_embed`, the attention plus meta-corrector parameters iff
`meta_corrector`, the super layer embedding plus generator parameters iff
`generator` — and `get_parameters(False, False, False)` is empty. -/
theorem get_parameters_spec {P : Type} (ps : ParamGroups P)
    (time_embed meta_corrector generator : Bool) :
    get_parameters ps time_embed meta_corrector generator =
      (if time_embed then [ps.superMetaEmbed] else [])
        ++ (if meta_corrector then
              ps.transAttParams ++ ps.metaCorrectorParams
            else [])
        ++ (if generator then ps.superLayerEmbed :: ps.generatorParams
            else [])
    ∧ get_parameters ps false false false = [] := by
  constructor
  · cases time_embed <;> cases meta_corrector <;> cases generator <;>
      simp [get_parameters]
  · rfl

/-- C2: in `_obtain_time_embed`, the mask entry for query timestamp `t`
(batch `b`, position `s`) against stored meta timestamp `m` (index `j`) is
`True` iff `t ≤ m` or `|t - m| > _thresh`; equivalently it is `False`
(the position is attended) iff `m` is strictly earlier than `t` and within
the threshold distance. -/
theorem att_mask_spec (timestamps : List (List ℚ)) (meta : List ℚ)
    (thresh : ℚ) (b s j : ℕ) (row : List ℚ) (t m : ℚ)
    (hb : timestamps[b]? = some row) (hs : row[s]? = some t)
    (hj : meta[j]? = some m) :
    ∃ v : Bool,
      (∃ mrow mvec, (att_mask timestamps meta thresh)[b]? = some mrow
        ∧ mrow[s]? = some mvec ∧ mvec[j]? = some v)
      ∧ (v = true ↔ (t ≤ m ∨ |t - m| > thresh))
      ∧ (v = false ↔ (m < t ∧ |t - m| ≤ thresh)) := by
  refine ⟨decide (t ≤ m) || decide (|t - m| > thresh), ⟨?_, ?_, ?_⟩⟩
  · refine ⟨row.map (fun t =>
      meta.map (fun m => decide (t ≤ m) || decide (|t - m| > thresh))),
      meta.map (fun m => decide (t ≤ m) || decide (|t - m| > thresh)),
      ?_, ?_, ?_⟩
    · simp [att_mask, List.getElem?_map, hb]
    · simp [List.getElem?_map, hs]
    · simp [List.getElem?_map, hj]
  · simp
  · simp [not_le, not_lt, and_comm]

/-- C7: `get_closest_meta_distance(timestamp)` returns the minimum absolute
difference between `timestamp` and the stored meta timestamps — the base
buffer together with any appended `fixed` and `learnt` entries. -/
theorem get_closest_meta_distance_spec (M : State E) (timestamp : ℚ)
    (h : meta_timestamps M ≠ []) :
    ∃ d, get_closest_meta_distance M timestamp = some d
      ∧ (∃ m ∈ meta_timestamps M, d = |m - timestamp|)
      ∧ (∀ m ∈ meta_timestamps M, d ≤ |m - timestamp|)
      ∧ (∀ m ∈ M.metaTimestamps, d ≤ |m - timestamp|)
      ∧ (∀ ts, M.appendFixedTs = some ts →
          ∀ m ∈ ts, d ≤ |m - timestamp|)
      ∧ (∀ tl, M.appendLearntTs = some tl → d ≤ |tl - timestamp|) := by
  have hne : (meta_timestamps M).map (fun m => |m - timestamp|) ≠ [] := by
    simpa using h
  obtain ⟨d, hd⟩ : ∃ d,
      ((meta_timestamps M).map (fun m => |m - timestamp|)).min? = some d := by
    cases hmin : ((meta_timestamps M).map (fun m => |m - timestamp|)).min? with
    | none => exact absurd (List.min?_eq_none_iff.mp hmin) hne
    | some d => exact ⟨d, rfl⟩
  obtain ⟨hmem, hle⟩ :=
    (@List.min?_eq_some_iff ℚ _ _ _ ⟨fun h₁ h₂ => le_antisymm h₁ h₂⟩
      (fun a => le_refl a) (fun a b => min_choice a b)
      (fun a b c => le_min_iff)).mp hd
  obtain ⟨m0, hm0, hm0d⟩ := List.mem_map.mp hmem
  have hall : ∀ m ∈ meta_timestamps M, d ≤ |m - timestamp| := fun m hm =>
    hle _ (List.mem_map.mpr ⟨m, hm, rfl⟩)
  refine ⟨d, hd, ⟨m0, hm0, hm0d.symm⟩, hall, ?_, ?_, ?_⟩
  · intro m hm
    exact hall m (by simp [meta_timestamps, hm])
  · intro ts hts m hm
    refine hall m ?_
    simp [meta_timestamps, hts, hm]
  · intro tl htl
    refine hall tl ?_
    simp [meta_timestamps, htl]

lemma time_seq_row_length (I : ℚ) (S : ℕ) (t : ℚ) :
    (time_seq_row I S t).length = S := by
  simp [time_seq_row, time_interval]

lemma time_seq_row_getElem? (I : ℚ) (S : ℕ) (t : ℚ) (k : ℕ) (hk : k < S) :
    (time_seq_row I S t)[k]? = some (t - ((S - 1 - k : ℕ) : ℚ) * I) := by
  unfold time_seq_row time_interval
  rw [List.getElem?_map, List.getElem?_reverse (by simpa using hk)]
  rw [List.length_map, List.length_range]
  rw [List.getElem?_map, List.getElem?_range (by omega)]
  simp [sub_eq_add_neg, neg_mul]

lemma time_seq_row_get (I : ℚ) (S : ℕ) (t : ℚ) (k : ℕ)
    (hk : k < (time_seq_row I S t).length) :
    (time_seq_row I S t).get ⟨k, hk⟩ = t - ((S - 1 - k : ℕ) : ℚ) * I := by
  have hkS : k < S := by simpa [time_seq_row_length] using hk
  have h := time_seq_row_getElem? I S t k hkS
  rw [List.getElem?_eq_getElem hk] at h
  simpa using h

/-- C6: with `time_embeds=None`, `forward_raw` builds, for each input
timestamp `t`, the sequence `[t - (seq_length-1)*interval, ..., t -
interval, t]`: `seq_length` evenly spaced values, strictly increasing (for
a positive interval), whose last element is `t`. -/
theorem forward_raw_time_seq_spec {L W C : Type} (M : State E)
    (layers : List L) (gen : E → L → W) (translate : List W → C)
    (rowEmbed : List ℚ → List E) (ts : List ℚ) (get_seq_last : Bool)
    (out : ForwardOut E C) (hI : 0 < M.interval) (hS : 1 ≤ M.seqLength)
    (hout : forward_raw M layers gen translate rowEmbed (some ts) none
      get_seq_last = some out) :
    out.timeSeq = some (ts.map (time_seq_row M.interval M.seqLength))
    ∧ ∀ t : ℚ,
        (time_seq_row M.interval M.seqLength t).length = M.seqLength
        ∧ (∀ k, k < M.seqLength →
            (time_seq_row M.interval M.seqLength t)[k]? =
              some (t - ((M.seqLength - 1 - k : ℕ) : ℚ) * M.interval))
        ∧ List.Chain' (· < ·) (time_seq_row M.interval M.seqLength t)
        ∧ (time_seq_row M.interval M.seqLength t).getLast? = some t := by
  constructor
  · simp only [forward_raw, forward_containers] at hout
    cases get_seq_last with
    | true =>
        simp only [Bool.true_eq, if_pos] at hout
        cases hlast : (obtain_time_embed rowEmbed
            (ts.map (time_seq_row M.interval M.seqLength))).mapM
            List.getLast? with
        | none => rw [hlast] at hout; cases hout
        | some ys =>
            rw [hlast] at hout
            cases hout
            rfl
    | false =>
        simp only [Bool.false_eq_true, if_neg, if_false] at hout
        cases hout
        rfl
  · intro t
    refine ⟨time_seq_row_length _ _ _, time_seq_row_getElem? _ _ _, ?_, ?_⟩
    · rw [List.chain'_iff_get]
      intro i hi
      rw [time_seq_row_length] at hi
      rw [time_seq_row_get, time_seq_row_get]
      have hab : M.seqLength - 1 - i = (M.seqLength - 1 - (i + 1)) + 1 := by
        omega
      rw [hab]
      push_cast
      nlinarith [hI]
    · rw [List.getLast?_eq_getElem?, time_seq_row_length]
      rw [time_seq_row_getElem? _ _ _ _ (by omega)]
      have : M.seqLength - 1 - (M.seqLength - 1) = 0 := by omega
      rw [this]
      simp

lemma meta_timestamps_eq (M : State E) :
    meta_timestamps M
      = M.metaTimestamps ++ M.appendFixedTs.getD []
          ++ M.appendLearntTs.elim [] (fun t => [t]) := by
  unfold meta_timestamps
  cases M.appendFixedTs <;> cases M.appendLearntTs <;> rfl

lemma super_meta_embed_eq (M : State E) :
    super_meta_embed M
      = M.superMetaEmbed ++ M.appendFixedEmbed.getD []
          ++ M.appendLearntEmbed.elim [] (fun e => [e]) := by
  unfold super_meta_embed
  cases M.appendFixedEmbed <;> cases M.appendLearntEmbed <;> rfl

lemma WF_length {M : State E} (h : WF M) :
    (meta_timestamps M).length = (super_meta_embed M).length := by
  obtain ⟨h1, h2, h3⟩ := h
  rw [meta_timestamps_eq, super_meta_embed_eq]
  cases hf : M.appendFixedTs <;> cases hg : M.appendFixedEmbed <;>
    cases hl : M.appendLearntTs <;> cases hm : M.appendLearntEmbed <;>
    simp_all

lemma WF_append_fixed {M : State E} (h : WF M) (ts : List ℚ)
    (rows : List E) (hlen : ts.length = rows.length) :
    WF (append_fixed M ts rows) := by
  obtain ⟨h1, h2, h3⟩ := h
  refine ⟨h1, ?_, h3⟩
  unfold append_fixed
  cases hf : M.appendFixedTs <;> cases hg : M.appendFixedEmbed <;>
    simp_all

lemma WF_replace_append_learnt {M : State E} (h : WF M) (tOpt : Option ℚ)
    (eOpt : Option E) (hsome : tOpt.isSome = eOpt.isSome) :
    WF (replace_append_learnt M tOpt eOpt) := by
  obtain ⟨h1, h2, h3⟩ := h
  exact ⟨h1, h2, hsome⟩

lemma WF_clear_fixed {M : State E} (h : WF M) : WF (clear_fixed M) := by
  obtain ⟨h1, h2, h3⟩ := h
  exact ⟨h1, trivial, h3⟩

/-- C5: when the timestamp and embedding bookkeeping is well-formed, the
`meta_timestamps` and `super_meta_embed` properties have equal length and
both concatenate base entries, then `fixed` appended entries, then the
`learnt` entry; every operation (`append_fixed` with matching shapes,
`replace_append_learnt` with matching slots, `clear_fixed`, `clear_learnt`)
preserves this. -/
theorem append_ops_invariant (M : State E) (hWF : WF M) :
    ((meta_timestamps M).length = (super_meta_embed M).length
      ∧ meta_timestamps M
          = M.metaTimestamps ++ M.appendFixedTs.getD []
              ++ M.appendLearntTs.elim [] (fun t => [t])
      ∧ super_meta_embed M
          = M.superMetaEmbed ++ M.appendFixedEmbed.getD []
              ++ M.appendLearntEmbed.elim [] (fun e => [e]))
    ∧ (∀ (ts : List ℚ) (rows : List E), ts.length = rows.length →
        WF (append_fixed M ts rows)
        ∧ (meta_timestamps (append_fixed M ts rows)).length
            = (super_meta_embed (append_fixed M ts rows)).length)
    ∧ (∀ (tOpt : Option ℚ) (eOpt : Option E),
        tOpt.isSome = eOpt.isSome →
        WF (replace_append_learnt M tOpt eOpt)
        ∧ (meta_timestamps (replace_append_learnt M tOpt eOpt)).length
            = (super_meta_embed (replace_append_learnt M tOpt eOpt)).length)
    ∧ (WF (clear_fixed M)
        ∧ (meta_timestamps (clear_fixed M)).length
            = (super_meta_embed (clear_fixed M)).length)
    ∧ (WF (clear_learnt M)
        ∧ (meta_timestamps (clear_learnt M)).length
            = (super_meta_embed (clear_learnt M)).length) := by
  refine ⟨⟨WF_length hWF, meta_timestamps_eq M, super_meta_embed_eq M⟩,
    ?_, ?_, ?_, ?_⟩
  · intro ts rows hlen
    have h := WF_append_fixed hWF ts rows hlen
    exact ⟨h, WF_length h⟩
  · intro tOpt eOpt hsome
    have h := WF_replace_append_learnt hWF tOpt eOpt hsome
    exact ⟨h, WF_length h⟩
  · have h := WF_clear_fixed hWF
    exact ⟨h, WF_length h⟩
  · have h := WF_replace_append_learnt hWF none none rfl
    exact ⟨h, WF_length h⟩

lemma mapM_getLast?_of_ne_nil {α : Type} :
    ∀ l : List (List α), (∀ r ∈ l, r ≠ []) →
      ∃ ys, l.mapM List.getLast? = some ys ∧ ys.length = l.length
  | [], _ => ⟨[], rfl, rfl⟩
  | r :: l, h => by
      obtain ⟨ys, hys, hlen⟩ := mapM_getLast?_of_ne_nil l
        (fun x hx => h x (List.mem_cons_of_mem _ hx))
      obtain ⟨y, hy⟩ : ∃ y, r.getLast? = some y := by
        cases hr : r.getLast? with
        | none =>
            exact absurd (List.getLast?_eq_none_iff.mp hr)
              (h r (List.mem_cons_self _ _))
        | some y => exact ⟨y, rfl⟩
      refine ⟨y :: ys, ?_, by simp [hlen]⟩
      rw [List.mapM_cons, hy, hys]
      rfl

/-- C1: `forward_raw` on a batch of `B` timestamps with
`get_seq_last=True` returns, as its second component, a list of exactly
`B` weight containers, each the translation of the generator output
through the stored shape container; with `get_seq_last=False` it returns
`B` lists of `seq_length` containers, one per sequence position. -/
theorem forward_raw_batch_spec {L W C : Type} (M : State E)
    (layers : List L) (gen : E → L → W) (translate : List W → C)
    (rowEmbed : List ℚ → List E) (ts : List ℚ)
    (hrow : ∀ r : List ℚ, (rowEmbed r).length = r.length)
    (hS : 1 ≤ M.seqLength) :
    (∃ (out : ForwardOut E C) (es : List E),
      forward_raw M layers gen translate rowEmbed (some ts) none
        true = some out
      ∧ es.length = ts.length
      ∧ out.containers = Sum.inl (es.map (gen_container layers gen translate)))
    ∧ (∃ (out : ForwardOut E C) (tess : List (List E)),
      forward_raw M layers gen translate rowEmbed (some ts)
        none false = some out
      ∧ tess.length = ts.length
      ∧ (∀ row ∈ tess, List.length row = M.seqLength)
      ∧ out.containers = Sum.inr (tess.map (fun row =>
          row.map (gen_container layers gen translate)))) := by
  have hte : ∀ r ∈ obtain_time_embed rowEmbed
      (ts.map (time_seq_row M.interval M.seqLength)), r.length = M.seqLength := by
    intro r hr
    obtain ⟨row, hrowmem, hreq⟩ := List.mem_map.mp hr
    obtain ⟨t, _, hteq⟩ := List.mem_map.mp hrowmem
    rw [← hreq, hrow, ← hteq, time_seq_row_length]
  constructor
  · obtain ⟨ys, hys, hyslen⟩ := mapM_getLast?_of_ne_nil
      (obtain_time_embed rowEmbed
        (ts.map (time_seq_row M.interval M.seqLength)))
      (by
        intro r hr
        have := hte r hr
        intro hnil
        rw [hnil] at this
        simp at this
        omega)
    refine ⟨⟨some (ts.map (time_seq_row M.interval M.seqLength)),
        Sum.inl (ys.map (gen_container layers gen translate)),
        Sum.inl ys⟩, ys, ?_, ?_, rfl⟩
    · unfold forward_raw forward_containers
      simp only [hys, if_true]
    · rw [hyslen]
      simp [obtain_time_embed]
  · refine ⟨_, obtain_time_embed rowEmbed
      (ts.map (time_seq_row M.interval M.seqLength)), rfl, ?_, hte, rfl⟩
    simp [obtain_time_embed]

lemma adapt_loop_succ (lossOf : E → ℚ) (stepF : ℕ → E → E) (n : ℕ)
    (st : LoopState E) :
    adapt_loop lossOf stepF (n + 1) st
      = adapt_epoch lossOf stepF (adapt_loop lossOf stepF n st) n := by
  unfold adapt_loop
  rw [List.range_succ, List.foldl_append]
  rfl

lemma adapt_loop_param (lossOf : E → ℚ) (stepF : ℕ → E → E)
    (st : LoopState E) :
    ∀ n, (adapt_loop lossOf stepF n st).param = param_traj stepF st.param n
  | 0 => rfl
  | n + 1 => by
      rw [adapt_loop_succ]
      simp only [adapt_epoch]
      split <;> simp [adapt_loop_param lossOf stepF st n, param_traj]

lemma adapt_loop_lastLoss (lossOf : E → ℚ) (stepF : ℕ → E → E)
    (st : LoopState E) (n : ℕ) (h : 1 ≤ n) :
    (adapt_loop lossOf stepF n st).lastLoss
      = some (lossOf (param_traj stepF st.param (n - 1))) := by
  cases n with
  | zero => exact absurd h (by omega)
  | succ m =>
      rw [adapt_loop_succ]
      simp only [adapt_epoch]
      split <;> simp [adapt_loop_param lossOf stepF st m]

lemma adapt_loop_best (lossOf : E → ℚ) (stepF : ℕ → E → E) (p0 : E)
    (b0 : ℚ) :
    ∀ n,
      ((adapt_loop lossOf stepF n ⟨p0, b0, p0, none⟩).bestParam = p0
        ∧ (adapt_loop lossOf stepF n ⟨p0, b0, p0, none⟩).bestLoss = b0
        ∧ ∀ i < n, ¬ lossOf (param_traj stepF p0 i) < b0)
      ∨ (∃ j < n,
          (adapt_loop lossOf stepF n ⟨p0, b0, p0, none⟩).bestParam
            = param_traj stepF p0 (j + 1)
          ∧ (adapt_loop lossOf stepF n ⟨p0, b0, p0, none⟩).bestLoss
            = lossOf (param_traj stepF p0 j)
          ∧ lossOf (param_traj stepF p0 j) < b0
          ∧ ∀ i < n, lossOf (param_traj stepF p0 j)
              ≤ lossOf (param_traj stepF p0 i))
  | 0 => Or.inl ⟨rfl, rfl, by omega⟩
  | n + 1 => by
      have hparam := adapt_loop_param lossOf stepF
        (⟨p0, b0, p0, none⟩ : LoopState E) n
      rw [adapt_loop_succ]
      simp only [adapt_epoch]
      rcases adapt_loop_best lossOf stepF p0 b0 n with
        ⟨hbp, hbl, hno⟩ | ⟨j, hj, hbp, hbl, hjb, hjmin⟩
      · rw [hparam, hbl]
        split
        · rename_i hlt
          refine Or.inr ⟨n, by omega, by simp [param_traj], by simp,
            hlt, ?_⟩
          intro i hi
          rcases Nat.lt_succ_iff_lt_or_eq.mp hi with hi' | hi'
          · exact le_of_lt (lt_of_lt_of_le hlt (not_lt.mp (hno i hi')))
          · simp [hi']
        · rename_i hlt
          refine Or.inl ⟨by simp [hbp], by simp [hbl], ?_⟩
          intro i hi
          rcases Nat.lt_succ_iff_lt_or_eq.mp hi with hi' | hi'
          · exact hno i hi'
          · rw [hi']; exact hlt
      · rw [hparam, hbl]
        split
        · rename_i hlt
          refine Or.inr ⟨n, by omega, by simp [param_traj], by simp,
            lt_trans hlt hjb, ?_⟩
          intro i hi
          rcases Nat.lt_succ_iff_lt_or_eq.mp hi with hi' | hi'
          · exact le_of_lt (lt_of_lt_of_le hlt (hjmin i hi'))
          · simp [hi']
        · rename_i hlt
          refine Or.inr ⟨j, by omega, by simp [hbp], by simp [hbl],
            hjb, ?_⟩
          intro i hi
          rcases Nat.lt_succ_iff_lt_or_eq.mp hi with hi' | hi'
          · exact hjmin i hi'
          · rw [hi']; exact not_lt.mp hlt

lemma adapt_far (M : State E) (timestamp : ℚ) (epochs : ℕ)
    (init_info : Option (ℚ × E)) (freshParam : E) (lossOf : E → ℚ)
    (stepF : ℕ → E → E) (d : ℚ) (p0 : E) (b0 : ℚ)
    (hd : get_closest_meta_distance M timestamp = some d)
    (hfar : ¬ d + M.interval * (1 / 100) ≤ M.interval)
    (he : 1 ≤ epochs)
    (hp0 : p0 = init_info.elim freshParam Prod.snd)
    (hb0 : b0 = init_info.elim 1000000000 Prod.fst) :
    adapt M timestamp epochs init_info freshParam lossOf stepF
      = some ((true, some (lossOf (param_traj stepF p0 (epochs - 1)))),
          append_fixed (replace_append_learnt
            (replace_append_learnt M (some timestamp) (some p0)) none none)
            [timestamp]
            [(adapt_loop lossOf stepF epochs
                ⟨p0, b0, p0, none⟩).bestParam]) := by
  subst hp0 hb0
  cases init_info with
  | none =>
      unfold adapt
      rw [hd]
      simp only [if_neg hfar, Option.elim]
      rw [adapt_loop_lastLoss lossOf stepF _ epochs he]
  | some info =>
      unfold adapt
      rw [hd]
      simp only [if_neg hfar, Option.elim]
      rw [adapt_loop_lastLoss lossOf stepF _ epochs he]

/-- C3: when the minimum distance from `timestamp` to the stored meta
timestamps satisfies `distance + interval*1e-2 <= interval`, `adapt`
returns `(False, None)` without touching the stored state; otherwise it
returns `(True, loss)` and the `fixed` appended timestamp/embedding pair
lists each grow by exactly one entry for the given timestamp. -/
theorem adapt_spec (M : State E) (timestamp : ℚ) (epochs : ℕ)
    (init_info : Option (ℚ × E)) (freshParam : E) (lossOf : E → ℚ)
    (stepF : ℕ → E → E) (d : ℚ)
    (hd : get_closest_meta_distance M timestamp = some d)
    (he : 1 ≤ epochs) :
    (d + M.interval * (1 / 100) ≤ M.interval →
      adapt M timestamp epochs init_info freshParam lossOf stepF
        = some ((false, none), M))
    ∧ (¬ d + M.interval * (1 / 100) ≤ M.interval →
      ∃ (l : ℚ) (M2 : State E) (e : E),
        adapt M timestamp epochs init_info freshParam lossOf stepF
          = some ((true, some l), M2)
        ∧ M2.appendFixedTs = some (M.appendFixedTs.getD [] ++ [timestamp])
        ∧ M2.appendFixedEmbed = some (M.appendFixedEmbed.getD [] ++ [e])
        ∧ M2.metaTimestamps = M.metaTimestamps
        ∧ M2.superMetaEmbed = M.superMetaEmbed) := by
  constructor
  · intro hnear
    unfold adapt
    rw [hd]
    simp only [if_pos hnear]
  · intro hfar
    have hfa := adapt_far M timestamp epochs init_info freshParam lossOf
      stepF d (init_info.elim freshParam Prod.snd)
      (init_info.elim 1000000000 Prod.fst) hd hfar he rfl rfl
    refine ⟨_, _, (adapt_loop lossOf stepF epochs
        ⟨init_info.elim freshParam Prod.snd,
         init_info.elim 1000000000 Prod.fst,
         init_info.elim freshParam Prod.snd, none⟩).bestParam,
      hfa, ?_, ?_, rfl, rfl⟩
    · cases hf : M.appendFixedTs <;>
        simp [append_fixed, replace_append_learnt, hf]
    · cases hf : M.appendFixedEmbed <;>
        simp [append_fixed, replace_append_learnt, hf]

/-- C4: when `adapt` succeeds, the appended fixed embedding is the
parameter snapshot cloned at the epoch whose meta loss was the lowest of
all epochs (or the `init_info` parameter when no epoch improved on
`init_info`'s loss), the `learnt` append slot is reset to `None` before
returning, yet the returned loss is the final epoch's meta loss, which
need not equal the best loss that selected the appended embedding (a
concrete run where they differ is included). -/
theorem adapt_best_snapshot_spec (M : State E) (timestamp : ℚ)
    (epochs : ℕ) (init_info : Option (ℚ × E)) (freshParam : E)
    (lossOf : E → ℚ) (stepF : ℕ → E → E) (d : ℚ) (p0 : E) (b0 : ℚ)
    (hd : get_closest_meta_distance M timestamp = some d)
    (hfar : ¬ d + M.interval * (1 / 100) ≤ M.interval)
    (he : 1 ≤ epochs)
    (hp0 : p0 = init_info.elim freshParam Prod.snd)
    (hb0 : b0 = init_info.elim 1000000000 Prod.fst) :
    (∃ M2 : State E,
      adapt M timestamp epochs init_info freshParam lossOf stepF
        = some ((true, some (lossOf (param_traj stepF p0 (epochs - 1)))),
            M2)
      ∧ M2.appendLearntTs = none
      ∧ M2.appendLearntEmbed = none
      ∧ ∃ e : E,
          M2.appendFixedEmbed = some (M.appendFixedEmbed.getD [] ++ [e])
          ∧ ((∀ i < epochs, ¬ lossOf (param_traj stepF p0 i) < b0) →
              e = p0)
          ∧ ((∃ i < epochs, lossOf (param_traj stepF p0 i) < b0) →
              ∃ j < epochs, e = param_traj stepF p0 (j + 1)
                ∧ lossOf (param_traj stepF p0 j) < b0
                ∧ ∀ i < epochs, lossOf (param_traj stepF p0 j)
                    ≤ lossOf (param_traj stepF p0 i)))
    ∧ ((adapt { metaTimestamps := [0], superMetaEmbed := [(0 : ℚ)],
                appendFixedTs := none, appendFixedEmbed := none,
                appendLearntTs := none, appendLearntEmbed := none,
                interval := 1, seqLength := 1, thresh := 30 }
          10 2 none (0 : ℚ) id (fun _ p => p + 1)).map
            (fun r => (r.1.2, r.2.appendFixedEmbed))
        = some (some (id (param_traj (fun _ p => p + 1) (0 : ℚ) 1)),
            some [param_traj (fun _ p => p + 1) (0 : ℚ) (0 + 1)])
      ∧ id (param_traj (fun _ p => p + 1) (0 : ℚ) 0)
          ≠ id (param_traj (fun _ p => p + 1) (0 : ℚ) 1)) := by
  constructor
  · refine ⟨_, adapt_far M timestamp epochs init_info freshParam lossOf
      stepF d p0 b0 hd hfar he hp0 hb0, rfl, rfl,
      (adapt_loop lossOf stepF epochs ⟨p0, b0, p0, none⟩).bestParam,
      ?_, ?_, ?_⟩
    · cases hf : M.appendFixedEmbed <;>
        simp [append_fixed, replace_append_learnt, hf]
    · intro hno
      rcases adapt_loop_best lossOf stepF p0 b0 epochs with
        ⟨hbp, _, _⟩ | ⟨j, hj, _, _, hjb, _⟩
      · exact hbp
      · exact absurd hjb (hno j hj)
    · intro hexists
      rcases adapt_loop_best lossOf stepF p0 b0 epochs with
        ⟨_, _, hno⟩ | ⟨j, hj, hbp, _, hjb, hjmin⟩
      · obtain ⟨i, hi, hlt⟩ := hexists
        exact absurd hlt (hno i hi)
      · exact ⟨j, hj, hbp, hjb, hjmin⟩
  · constructor
    · have hd10 : get_closest_meta_distance
          ({ metaTimestamps := [0], superMetaEmbed := [(0 : ℚ)],
             appendFixedTs := none, appendFixedEmbed := none,
             appendLearntTs := none, appendLearntEmbed := none,
             interval := 1, seqLength := 1, thresh := 30 } : State ℚ) 10
          = some 10 := by
        norm_num [get_closest_meta_distance, meta_timestamps, List.min?]
      have hfa := adapt_far (E := ℚ) _ 10 2 none 0 id (fun _ p => p + 1)
        10 0 1000000000 hd10 (by norm_num) (by norm_num) rfl rfl
      rw [hfa]
      norm_num [adapt_loop, adapt_epoch, param_traj, List.range_succ,
        append_fixed, replace_append_learnt]
    · norm_num [param_traj]

/-- A concrete model state used to instantiate the theorems: one base
timestamp `0` with a one-row embedding, no appended entries, `interval 1`,
`seq_length 2` and the default threshold `interval * 30`. -/
def sample_state : State ℚ :=
  { metaTimestamps := [0], superMetaEmbed := [0],
    appendFixedTs := none, appendFixedEmbed := none,
    appendLearntTs := none, appendLearntEmbed := none,
    interval := 1, seqLength := 2, thresh := 30 }

theorem att_mask_spec_witness :
    ∃ v : Bool,
      (∃ mrow mvec, (att_mask [[(5 : ℚ)]] [3] 30)[0]? = some mrow
        ∧ mrow[0]? = some mvec ∧ mvec[0]? = some v)
      ∧ (v = true ↔ ((5 : ℚ) ≤ 3 ∨ |(5 : ℚ) - 3| > 30))
      ∧ (v = false ↔ ((3 : ℚ) < 5 ∧ |(5 : ℚ) - 3| ≤ 30)) :=
  att_mask_spec [[5]] [3] 30 0 0 0 [5] 5 3 rfl rfl rfl

theorem get_closest_meta_distance_spec_witness :
    ∃ d, get_closest_meta_distance sample_state 1 = some d
      ∧ (∃ m ∈ meta_timestamps sample_state, d = |m - 1|)
      ∧ (∀ m ∈ meta_timestamps sample_state, d ≤ |m - 1|)
      ∧ (∀ m ∈ sample_state.metaTimestamps, d ≤ |m - 1|)
      ∧ (∀ ts, sample_state.appendFixedTs = some ts →
          ∀ m ∈ ts, d ≤ |m - 1|)
      ∧ (∀ tl, sample_state.appendLearntTs = some tl → d ≤ |tl - 1|) :=
  get_closest_meta_distance_spec sample_state 1
    (by simp [sample_state, meta_timestamps])

theorem forward_raw_time_seq_spec_witness :
    (time_seq_row 1 2 0).length = 2
    ∧ (∀ k, k < 2 →
        (time_seq_row 1 2 0)[k]? = some (0 - ((2 - 1 - k : ℕ) : ℚ) * 1))
    ∧ List.Chain' (· < ·) (time_seq_row 1 2 0)
    ∧ (time_seq_row (1 : ℚ) 2 0).getLast? = some 0 :=
  (forward_raw_time_seq_spec (L := Unit) (W := ℚ) (C := List ℚ)
    sample_state [()] (fun e _ => e) id id [5] false _
    (by norm_num [sample_state]) (by norm_num [sample_state]) rfl).2 0

theorem append_ops_invariant_witness :
    (meta_timestamps sample_state).length
      = (super_meta_embed sample_state).length :=
  (append_ops_invariant sample_state ⟨rfl, trivial, rfl⟩).1.1

theorem forward_raw_batch_spec_witness :
    ∃ (out : ForwardOut ℚ (List ℚ)) (es : List ℚ),
      forward_raw sample_state [()] (fun e (_ : Unit) => e) id id
        (some [5]) none true = some out
      ∧ es.length = [(5 : ℚ)].length
      ∧ out.containers
          = Sum.inl (es.map (gen_container [()] (fun e (_ : Unit) => e) id)) :=
  (forward_raw_batch_spec sample_state [()] (fun e _ => e) id id [5]
    (fun r => rfl) (by norm_num [sample_state])).1

theorem adapt_spec_witness :
    adapt sample_state (1 / 2) 1 none 0 id (fun _ p => p)
      = some ((false, none), sample_state) :=
  (adapt_spec sample_state (1 / 2) 1 none 0 id (fun _ p => p) (1 / 2)
    (by norm_num [get_closest_meta_distance, meta_timestamps, sample_state,
      List.min?])
    (by norm_num)).1 (by norm_num [sample_state])

theorem adapt_best_snapshot_spec_witness :
    (adapt { metaTimestamps := [0], superMetaEmbed := [(0 : ℚ)],
             appendFixedTs := none, appendFixedEmbed := none,
             appendLearntTs := none, appendLearntEmbed := none,
             interval := 1, seqLength := 1, thresh := 30 }
        10 2 none (0 : ℚ) id (fun _ p => p + 1)).map
          (fun r => (r.1.2, r.2.appendFixedEmbed))
      = some (some (id (param_traj (fun _ p => p + 1) (0 : ℚ) 1)),
          some [param_traj (fun _ p => p + 1) (0 : ℚ) (0 + 1)]) :=
  (adapt_best_snapshot_spec sample_state 10 2 none 0 id (fun _ p => p + 1)
    10 0 1000000000
    (by norm_num [get_closest_meta_distance, meta_timestamps, sample_state,
      List.min?])
    (by norm_num [sample_state]) (by norm_num) rfl rfl).2.1

end MetaModelV1
